import Mathlib

/-!
Shallow embedding of the ScheduleCSP timetabling solver (`src/main.py`).

The Python program is a chronological backtracking CSP solver over
Requirements (`MustToLearn`) whose domains are lists of fully populated
`Lesson` candidates.  The mutable Python `dict` holding the partial
assignment is embedded as an insertion-ordered association list that is
threaded explicitly through every operation, so that the mutation
discipline of the source (bind, recurse, delete-on-failure) becomes
visible in the types.  The recursion of `backtrack` is indexed by fuel;
a theorem below shows that fuel `variables.length + 1` always suffices,
which is the embedding's rendering of termination.
-/

namespace ScheduleCSP

/-- `Group` dataclass of the source: name and student count. -/
structure Group where
  name : String
  students : Int
deriving DecidableEq

/-- `Auditorium` dataclass of the source: name and capacity. -/
structure Auditorium where
  name : String
  capacity : Int
deriving DecidableEq

/-- `MustToLearn` dataclass of the source: a Requirement, i.e. the pair of a
group and a subject it must take.  Frozen dataclass, value equality. -/
structure MustToLearn where
  group : Group
  subject : String
deriving DecidableEq

/-- `Lesson` dataclass of the source: a candidate scheduling slot.  In the
driver the `group` field holds a `Group` object and the remaining optional
fields default to `None`, hence the `Option` types. -/
structure Lesson where
  group : Group
  subject : String
  teacher : Option String := none
  day : Option String := none
  lesson_num : Option Int := none
  auditorium : Option Auditorium := none
deriving DecidableEq

/-- The partial assignment: the Python `dict[MustToLearn, Lesson]`, embedded
as an insertion-ordered association list with (invariantly) unique keys. -/
abbrev Assignment := List (MustToLearn × Lesson)

/-- The keys of the assignment dict, in insertion order. -/
def keys (a : Assignment) : List MustToLearn := a.map Prod.fst

/-- `assignment.values()` of the dict, in insertion order. -/
def values (a : Assignment) : List Lesson := a.map Prod.snd

/-- `assignment[var] = value` on a Python dict: if the key is present its
value is replaced in place (position kept), otherwise the pair is appended. -/
def dictInsert (k : MustToLearn) (v : Lesson) (a : Assignment) : Assignment :=
  if k ∈ keys a then a.map (fun p => if p.1 = k then (k, v) else p)
  else a ++ [(k, v)]

/-- `del assignment[var]` on a Python dict: remove the entry with that key
(unique under the dict invariant, so removing every occurrence agrees). -/
def eraseKey (k : MustToLearn) (a : Assignment) : Assignment :=
  a.filter (fun p => decide (p.1 ≠ k))

@[simp] theorem keys_nil : keys [] = [] := rfl

@[simp] theorem keys_append (a b : Assignment) : keys (a ++ b) = keys a ++ keys b := by
  simp [keys]

@[simp] theorem keys_cons (p : MustToLearn × Lesson) (a : Assignment) :
    keys (p :: a) = p.1 :: keys a := rfl

@[simp] theorem values_nil : values [] = [] := rfl

@[simp] theorem values_append (a b : Assignment) :
    values (a ++ b) = values a ++ values b := by
  simp [values]

theorem mem_keys {k : MustToLearn} {a : Assignment} :
    k ∈ keys a ↔ ∃ p ∈ a, p.1 = k := by
  simp [keys]

theorem dictInsert_of_not_mem {k : MustToLearn} {v : Lesson} {a : Assignment}
    (h : k ∉ keys a) : dictInsert k v a = a ++ [(k, v)] := by
  simp [dictInsert, h]

theorem eraseKey_of_not_mem {k : MustToLearn} {a : Assignment}
    (h : k ∉ keys a) : eraseKey k a = a := by
  rw [eraseKey, List.filter_eq_self]
  intro p hp
  simp only [decide_eq_true_eq]
  intro hk
  exact h (mem_keys.mpr ⟨p, hp, hk⟩)

theorem eraseKey_insert_of_not_mem {k : MustToLearn} {v : Lesson} {a : Assignment}
    (h : k ∉ keys a) : eraseKey k (dictInsert k v a) = a := by
  rw [dictInsert_of_not_mem h, eraseKey, List.filter_append]
  have h1 : List.filter (fun p => decide (p.1 ≠ k)) a = a := eraseKey_of_not_mem h
  have h2 : List.filter (fun p => decide (p.1 ≠ k)) [(k, v)] = [] := by simp
  rw [h1, h2, List.append_nil]

/-- `teacher_time_conflict_constraint` of the source: a lesson conflicts with
a different lesson value that shares teacher, day and period and in addition
differs in subject, or repeats the group, or differs in auditorium. -/
def teacher_time_conflict_constraint (assignment : Assignment) : Bool :=
  (values assignment).all fun lesson =>
    ! (values assignment).any fun other_lesson =>
        decide (other_lesson ≠ lesson) &&
        (decide (lesson.teacher = other_lesson.teacher) &&
         (decide (lesson.day = other_lesson.day) &&
          (decide (lesson.lesson_num = other_lesson.lesson_num) &&
           (decide (lesson.subject ≠ other_lesson.subject) ||
            decide (lesson.group = other_lesson.group) ||
            decide (lesson.auditorium ≠ other_lesson.auditorium)))))

/-- `group_time_conflict_constraint` of the source: a lesson conflicts with a
different lesson value that has the same group, day and period. -/
def group_time_conflict_constraint (assignment : Assignment) : Bool :=
  (values assignment).all fun lesson =>
    ! (values assignment).any fun other_lesson =>
        decide (other_lesson ≠ lesson) &&
        (decide (lesson.group = other_lesson.group) &&
         (decide (lesson.day = other_lesson.day) &&
          decide (lesson.lesson_num = other_lesson.lesson_num)))

/-- `auditorium_time_conflict_constraint` of the source: a lesson conflicts
with a different lesson value in the same auditorium, day and period unless
both subject and teacher coincide. -/
def auditorium_time_conflict_constraint (assignment : Assignment) : Bool :=
  (values assignment).all fun lesson =>
    ! (values assignment).any fun other_lesson =>
        decide (other_lesson ≠ lesson) &&
        (decide (lesson.day = other_lesson.day) &&
         (decide (lesson.lesson_num = other_lesson.lesson_num) &&
          (decide (lesson.auditorium = other_lesson.auditorium) &&
           (decide (lesson.subject ≠ other_lesson.subject) ||
            decide (lesson.teacher ≠ other_lesson.teacher)))))

/-- The consistency check run by `CSP.is_consistent`: the conjunction of the
three constraint functions in the source's `constraints` list, in order. -/
def consistentAll (a : Assignment) : Bool :=
  teacher_time_conflict_constraint a &&
  (group_time_conflict_constraint a && auditorium_time_conflict_constraint a)

/-- CPython's `min(xs, key=...)` keeps the current best and replaces it only
on a strictly smaller key, so the first minimum wins; on an empty list it
raises, embedded here as `none`. -/
def pyMin {α : Type} (key : α → Nat) : List α → Option α
  | [] => none
  | x :: xs => some (xs.foldl (fun best y => if key y < key best then y else best) x)

/-- The `CSP` class: the ordered Requirement list and the domain mapping
(the Python dict `D`, embedded as a function). -/
structure CSP where
  vars : List MustToLearn
  domains : MustToLearn → List Lesson

/-- The local list `unassigned` of `select_unassigned_variable`:
`[v for v in self.variables if v not in assignment]`. -/
def CSP.unassigned (csp : CSP) (a : Assignment) : List MustToLearn :=
  csp.vars.filter (fun v => !decide (v ∈ keys a))

/-- `CSP.select_unassigned_variable`: the MRV heuristic,
`min(unassigned, key=lambda var: len(self.domains[var]))`. -/
def CSP.select_unassigned_variable (csp : CSP) (a : Assignment) : Option MustToLearn :=
  pyMin (fun v => (csp.domains v).length) (csp.unassigned a)

/-- `CSP.is_consistent`: writes `assignment[var] = value`, evaluates the three
constraints on the extended dict, then deletes the key again on every path.
The returned pair is the Boolean verdict together with the state in which the
method leaves the shared dict. -/
def CSP.is_consistent (csp : CSP) (var : MustToLearn) (value : Lesson)
    (assignment : Assignment) : Bool × Assignment :=
  let a1 := dictInsert var value assignment
  (consistentAll a1, eraseKey var a1)

/-- One result of the recursive search: the Python pair `(result, i)` where
`result` is the dict on success or `None` on failure, extended with the state
in which the call leaves the shared dict (in Python this state is implicit in
the mutated `assignment`). -/
abbrev BTResult := Option Assignment × Assignment × Nat

/-- The `for value in self.domains[var]` loop body of `backtrack`, abstracted
over the recursive call `bt` (the continuation `self.backtrack` at the next
depth).  On a consistent candidate it binds `assignment[var] = value`,
recurses, propagates success, and otherwise executes `del assignment[var]`
and moves to the next candidate. -/
def goVals (csp : CSP) (bt : Assignment → Nat → Option BTResult)
    (var : MustToLearn) : List Lesson → Assignment → Nat → Option BTResult
  | [], a, i => some (none, a, i)
  | v :: rest, a, i =>
      match csp.is_consistent var v a with
      | (true, a1) =>
          match bt (dictInsert var v a1) i with
          | none => none
          | some (some r, st, j) => some (some r, st, j)
          | some (none, st, j) => goVals csp bt var rest (eraseKey var st) j
      | (false, a1) => goVals csp bt var rest a1 i

/-- `CSP.backtrack`, indexed by fuel (the Python recursion has no fuel; the
fuel-sufficiency theorem below shows that `variables.length + 1` is always
enough, so the embedding computes exactly the source's result).  `none` is
fuel exhaustion; `some (result, state, i)` is the Python return value pair
together with the state of the shared dict.  The completeness test compares
against `len(csp.vars)` (the source reads the global `csp`, which in
every run is the object being solved). -/
def CSP.backtrackF (csp : CSP) : Nat → Assignment → Nat → Option BTResult
  | 0, _, _ => none
  | fuel + 1, a, i =>
      if a.length = csp.vars.length then some (some a, a, i + 1)
      else
        match csp.select_unassigned_variable a with
        | none => some (none, a, i + 1)
        | some var => goVals csp (csp.backtrackF fuel) var (csp.domains var) a (i + 1)

/-- `CSP.solve`: runs `backtrack` on the empty dict with counter 0 and
returns `assignment or None, i` — the Python `or` coerces both `None` and
the empty (falsy) dict to `None`. -/
def CSP.solve (csp : CSP) : Option Assignment × Nat :=
  match csp.backtrackF (csp.vars.length + 1) [] 0 with
  | some (some a, _, i) => (if a.isEmpty then none else some a, i)
  | some (none, _, i) => (none, i)
  | none => (none, 0)

/-! Concrete instances used by witnesses and counterexamples. -/

/-- A group of 100 students. -/
def gBig : Group := ⟨"g1", 100⟩

/-- A second group. -/
def gSmall : Group := ⟨"g2", 20⟩

/-- A room with capacity 10, far below `gBig`. -/
def audSmall : Auditorium := ⟨"A", 10⟩

/-- Requirement: `gBig` takes subject s1. -/
def reqBig : MustToLearn := ⟨gBig, "s1"⟩

/-- Requirement: `gBig` takes subject s2. -/
def reqBig2 : MustToLearn := ⟨gBig, "s2"⟩

/-- Requirement: `gSmall` takes subject s2. -/
def reqSmall : MustToLearn := ⟨gSmall, "s2"⟩

/-- Candidate for `reqBig`: Monday, period 1, room `audSmall`. -/
def lesBig : Lesson := ⟨gBig, "s1", some "t", some "Mon", some 1, some audSmall⟩

/-- Candidate for `reqBig`: Monday, period 2, room `audSmall`. -/
def lesBig2 : Lesson := ⟨gBig, "s1", some "t", some "Mon", some 2, some audSmall⟩

/-- Candidate for `reqBig2`: clashes with `lesBig` on group, day and period. -/
def lesBig2b : Lesson := ⟨gBig, "s2", some "u", some "Mon", some 1, some audSmall⟩

/-- Candidate for `reqSmall`: same teacher, day and period as `lesBig`. -/
def lesSmall : Lesson := ⟨gSmall, "s2", some "t", some "Mon", some 1, some audSmall⟩

/-- One Requirement with a single candidate: `solve` succeeds (in a room far
too small for the group, which no constraint of the source inspects). -/
def cspOne : CSP := ⟨[reqBig], fun r => if r = reqBig then [lesBig] else []⟩

/-- Two Requirements, one with an empty domain. -/
def cspEmptyDom : CSP :=
  ⟨[reqBig, reqBig2], fun r => if r = reqBig then [lesBig] else []⟩

/-- An instance with an empty variable list. -/
def cspNoVars : CSP := ⟨[], fun _ => []⟩

/-- Two Requirements of one group forced onto the same slot: unsatisfiable. -/
def cspClash : CSP :=
  ⟨[reqBig, reqBig2], fun r =>
    if r = reqBig then [lesBig] else if r = reqBig2 then [lesBig2b] else []⟩

/-- An instance where the first candidate of `reqBig` is rejected (teacher
conflict with the forced `lesSmall`) and the second is taken. -/
def cspRetry : CSP :=
  ⟨[reqBig, reqSmall], fun r =>
    if r = reqBig then [lesBig, lesBig2] else if r = reqSmall then [lesSmall] else []⟩

example : cspOne.solve = (some [(reqBig, lesBig)], 2) := by decide
example : cspEmptyDom.solve = (none, 1) := by decide
example : cspNoVars.solve = (none, 1) := by decide
example : cspClash.solve = (none, 2) := by decide
example : cspRetry.solve = (some [(reqSmall, lesSmall), (reqBig, lesBig2)], 3) := by decide

/-! Properties of `pyMin`: the result is the first element attaining the
minimum of the key over the list. -/

theorem foldlMin_spec {α : Type} (key : α → Nat) :
    ∀ (xs : List α) (b : α),
      (∀ y ∈ b :: xs,
        key (xs.foldl (fun best z => if key z < key best then z else best) b) ≤ key y) ∧
      ∃ l1 l2, b :: xs = l1 ++
          (xs.foldl (fun best z => if key z < key best then z else best) b) :: l2 ∧
        ∀ u ∈ l1,
          key (xs.foldl (fun best z => if key z < key best then z else best) b) < key u := by
  intro xs
  induction xs with
  | nil =>
    intro b
    refine ⟨?_, [], [], rfl, by simp⟩
    intro y hy
    simp only [List.foldl_nil]
    simp only [List.mem_singleton] at hy
    subst hy
    exact le_refl _
  | cons y ys ih =>
    intro b
    simp only [List.foldl_cons]
    by_cases hyb : key y < key b
    · simp only [if_pos hyb]
      obtain ⟨hmin, l1, l2, hdec, hpre⟩ := ih y
      constructor
      · intro z hz
        simp only [List.mem_cons] at hz
        rcases hz with rfl | hz
        · exact le_of_lt (lt_of_le_of_lt (hmin y (by simp)) hyb)
        · exact hmin z (by simp [hz])
      · refine ⟨b :: l1, l2, by rw [List.cons_append, ← hdec], ?_⟩
        intro u hu
        simp only [List.mem_cons] at hu
        rcases hu with rfl | hu
        · exact lt_of_le_of_lt (hmin y (by simp)) hyb
        · exact hpre u hu
    · simp only [if_neg hyb]
      obtain ⟨hmin, l1, l2, hdec, hpre⟩ := ih b
      have hby : key b ≤ key y := le_of_not_lt hyb
      set r := List.foldl (fun best z => if key z < key best then z else best) b ys with hr
      constructor
      · intro z hz
        simp only [List.mem_cons] at hz
        rcases hz with rfl | rfl | hz
        · exact hmin z (by simp)
        · exact le_trans (hmin b (by simp)) hby
        · exact hmin z (by simp [hz])
      · cases l1 with
        | nil =>
          simp only [List.nil_append] at hdec
          refine ⟨[], y :: ys, ?_, by simp⟩
          rw [List.nil_append]
          rw [List.cons.injEq] at hdec
          rw [← hdec.1]
        | cons c t =>
          rw [List.cons_append, List.cons.injEq] at hdec
          obtain ⟨rfl, hys⟩ := hdec
          refine ⟨b :: y :: t, l2, ?_, ?_⟩
          · rw [hys]; simp
          · intro u hu
            simp only [List.mem_cons] at hu
            rcases hu with rfl | rfl | hu
            · exact hpre u (by simp)
            · exact lt_of_lt_of_le (hpre b (by simp)) hby
            · exact hpre u (by simp [hu])

theorem pyMin_spec {α : Type} (key : α → Nat) (l : List α) (m : α)
    (h : pyMin key l = some m) :
    (∀ y ∈ l, key m ≤ key y) ∧
    ∃ l1 l2, l = l1 ++ m :: l2 ∧ ∀ u ∈ l1, key m < key u := by
  cases l with
  | nil => exact Option.noConfusion h
  | cons x xs =>
    have hm : m = xs.foldl (fun best z => if key z < key best then z else best) x :=
      (Option.some.inj h).symm
    subst hm
    exact foldlMin_spec key xs x

theorem pyMin_isSome {α : Type} (key : α → Nat) (l : List α) (h : l ≠ []) :
    ∃ m, pyMin key l = some m := by
  cases l with
  | nil => exact absurd rfl h
  | cons x xs => exact ⟨_, rfl⟩

theorem pyMin_mem {α : Type} (key : α → Nat) (l : List α) (m : α)
    (h : pyMin key l = some m) : m ∈ l := by
  obtain ⟨-, l1, l2, hdec, -⟩ := pyMin_spec key l m h
  rw [hdec]
  simp

/-! Properties of variable selection and of the consistency check. -/

theorem mem_unassigned {csp : CSP} {a : Assignment} {v : MustToLearn} :
    v ∈ csp.unassigned a ↔ v ∈ csp.vars ∧ v ∉ keys a := by
  simp [CSP.unassigned]

theorem unassigned_nil (csp : CSP) : csp.unassigned [] = csp.vars := by
  rw [CSP.unassigned, List.filter_eq_self]
  intro v hv
  simp

theorem select_mem {csp : CSP} {a : Assignment} {var : MustToLearn}
    (h : csp.select_unassigned_variable a = some var) :
    var ∈ csp.vars ∧ var ∉ keys a :=
  mem_unassigned.mp (pyMin_mem _ _ _ h)

theorem select_isSome {csp : CSP} {a : Assignment}
    (h : csp.unassigned a ≠ []) :
    ∃ var, csp.select_unassigned_variable a = some var :=
  pyMin_isSome _ _ h

theorem is_consistent_fst (csp : CSP) (var : MustToLearn) (v : Lesson)
    (a : Assignment) :
    (csp.is_consistent var v a).1 = consistentAll (dictInsert var v a) := rfl

theorem is_consistent_snd (csp : CSP) (var : MustToLearn) (v : Lesson)
    (a : Assignment) (h : var ∉ keys a) :
    (csp.is_consistent var v a).2 = a := by
  show eraseKey var (dictInsert var v a) = a
  exact eraseKey_insert_of_not_mem h

theorem is_consistent_eq (csp : CSP) (var : MustToLearn) (v : Lesson)
    (a : Assignment) (h : var ∉ keys a) :
    csp.is_consistent var v a = (consistentAll (a ++ [(var, v)]), a) := by
  have h1 := is_consistent_snd csp var v a h
  have h2 := is_consistent_fst csp var v a
  rw [dictInsert_of_not_mem h] at h2
  calc csp.is_consistent var v a
      = ((csp.is_consistent var v a).1, (csp.is_consistent var v a).2) := rfl
    _ = (consistentAll (a ++ [(var, v)]), a) := by rw [h1, h2]

/-! Equations and state lemmas for the candidate loop and the recursion. -/

theorem goVals_nil (csp : CSP) (bt : Assignment → Nat → Option BTResult)
    (var : MustToLearn) (a : Assignment) (i : Nat) :
    goVals csp bt var [] a i = some (none, a, i) := rfl

theorem goVals_cons (csp : CSP) (bt : Assignment → Nat → Option BTResult)
    (var : MustToLearn) (v : Lesson) (rest : List Lesson) (a : Assignment) (i : Nat) :
    goVals csp bt var (v :: rest) a i =
      match csp.is_consistent var v a with
      | (true, a1) =>
          match bt (dictInsert var v a1) i with
          | none => none
          | some (some r, st, j) => some (some r, st, j)
          | some (none, st, j) => goVals csp bt var rest (eraseKey var st) j
      | (false, a1) => goVals csp bt var rest a1 i := rfl

/-- The candidate loop splits on the verdict of `is_consistent`; when the
tried variable is not yet bound the dict it works on is just `a`. -/
theorem goVals_cons_split (csp : CSP) (bt : Assignment → Nat → Option BTResult)
    (var : MustToLearn) (v : Lesson) (rest : List Lesson) (a : Assignment) (i : Nat)
    (hvar : var ∉ keys a) :
    goVals csp bt var (v :: rest) a i =
      if consistentAll (a ++ [(var, v)]) = true then
        match bt (a ++ [(var, v)]) i with
        | none => none
        | some (some r, st, j) => some (some r, st, j)
        | some (none, st, j) => goVals csp bt var rest (eraseKey var st) j
      else goVals csp bt var rest a i := by
  by_cases hc : consistentAll (a ++ [(var, v)]) = true
  · rw [if_pos hc, goVals_cons, is_consistent_eq csp var v a hvar, hc]
    show (match bt (dictInsert var v a) i with
          | none => none
          | some (some r, st, j) => some (some r, st, j)
          | some (none, st, j) => goVals csp bt var rest (eraseKey var st) j) =
         (match bt (a ++ [(var, v)]) i with
          | none => none
          | some (some r, st, j) => some (some r, st, j)
          | some (none, st, j) => goVals csp bt var rest (eraseKey var st) j)
    rw [dictInsert_of_not_mem hvar]
  · rw [if_neg hc, goVals_cons, is_consistent_eq csp var v a hvar]
    have hc' : consistentAll (a ++ [(var, v)]) = false := by
      cases hcc : consistentAll (a ++ [(var, v)])
      · rfl
      · exact absurd hcc hc
    rw [hc']

theorem backtrackF_zero (csp : CSP) (a : Assignment) (i : Nat) :
    csp.backtrackF 0 a i = none := rfl

theorem backtrackF_succ (csp : CSP) (fuel : Nat) (a : Assignment) (i : Nat) :
    csp.backtrackF (fuel + 1) a i =
      if a.length = csp.vars.length then some (some a, a, i + 1)
      else
        match csp.select_unassigned_variable a with
        | none => some (none, a, i + 1)
        | some var => goVals csp (csp.backtrackF fuel) var (csp.domains var) a (i + 1) := rfl

/-- A failed pass over the candidate list leaves the dict exactly as it was:
every binding added along the way has been deleted again. -/
theorem goVals_none_state (csp : CSP) (bt : Assignment → Nat → Option BTResult)
    (hbt : ∀ a i st j, bt a i = some (none, st, j) → st = a)
    (var : MustToLearn) :
    ∀ (vals : List Lesson) (a : Assignment) (i : Nat) (st : Assignment) (j : Nat),
      var ∉ keys a → goVals csp bt var vals a i = some (none, st, j) → st = a := by
  intro vals
  induction vals with
  | nil =>
    intro a i st j hvar h
    rw [goVals_nil] at h
    injection h with h'
    injection h' with h1 h2
    injection h2 with h3 h4
    exact h3.symm
  | cons v rest ih =>
    intro a i st j hvar h
    rw [goVals_cons_split csp bt var v rest a i hvar] at h
    by_cases hc : consistentAll (a ++ [(var, v)]) = true
    · rw [if_pos hc] at h
      cases hbt' : bt (a ++ [(var, v)]) i with
      | none =>
        rw [hbt'] at h
        exact Option.noConfusion h
      | some res =>
        obtain ⟨r, st', j'⟩ := res
        cases r with
        | some rr =>
          rw [hbt'] at h
          have h2 : (some (some rr, st', j') : Option BTResult) = some (none, st, j) := h
          injection h2 with h'
          injection h' with h1 h2
          exact Option.noConfusion h1
        | none =>
          rw [hbt'] at h
          have hst' : st' = a ++ [(var, v)] := hbt _ _ _ _ hbt'
          have herase : eraseKey var st' = a := by
            rw [hst', ← dictInsert_of_not_mem hvar]
            exact eraseKey_insert_of_not_mem hvar
          have h2 : goVals csp bt var rest (eraseKey var st') j' = some (none, st, j) := h
          rw [herase] at h2
          exact ih a j' st j hvar h2
    · rw [if_neg hc] at h
      exact ih a i st j hvar h

/-- C7 backbone: a failed `backtrack` call leaves the shared dict exactly in
its entry state. -/
theorem backtrackF_none_state (csp : CSP) :
    ∀ (fuel : Nat) (a : Assignment) (i : Nat) (st : Assignment) (j : Nat),
      csp.backtrackF fuel a i = some (none, st, j) → st = a := by
  intro fuel
  induction fuel with
  | zero =>
    intro a i st j h
    exact Option.noConfusion h
  | succ fuel ih =>
    intro a i st j h
    rw [backtrackF_succ] at h
    by_cases hlen : a.length = csp.vars.length
    · rw [if_pos hlen] at h
      injection h with h'
      injection h' with h1 h2
      exact Option.noConfusion h1
    · rw [if_neg hlen] at h
      cases hsel : csp.select_unassigned_variable a with
      | none =>
        rw [hsel] at h
        have h2 : (some (none, a, i + 1) : Option BTResult) = some (none, st, j) := h
        injection h2 with h'
        injection h' with h1 h2
        injection h2 with h3 h4
        exact h3.symm
      | some var =>
        rw [hsel] at h
        have h2 : goVals csp (csp.backtrackF fuel) var (csp.domains var) a (i + 1) =
            some (none, st, j) := h
        exact goVals_none_state csp _ ih var _ a _ st j (select_mem hsel).2 h2

/-! Fuel sufficiency: the recursion of the source always bottoms out after at
most `vars.length + 1` nested calls, because each recursive call binds one
more variable. -/

theorem goVals_total (csp : CSP) (bt : Assignment → Nat → Option BTResult)
    (hbt_none : ∀ a i st j, bt a i = some (none, st, j) → st = a)
    (var : MustToLearn) (n : Nat)
    (hbt_tot : ∀ a' i', a'.length = n + 1 → ∃ r, bt a' i' = some r) :
    ∀ (vals : List Lesson) (a : Assignment) (i : Nat),
      var ∉ keys a → a.length = n →
      ∃ r, goVals csp bt var vals a i = some r := by
  intro vals
  induction vals with
  | nil =>
    intro a i hvar hlen
    exact ⟨_, goVals_nil csp bt var a i⟩
  | cons v rest ih =>
    intro a i hvar hlen
    rw [goVals_cons_split csp bt var v rest a i hvar]
    by_cases hc : consistentAll (a ++ [(var, v)]) = true
    · rw [if_pos hc]
      obtain ⟨r, hr⟩ := hbt_tot (a ++ [(var, v)]) i (by simp [hlen])
      rw [hr]
      obtain ⟨res, st', j'⟩ := r
      cases res with
      | some rr => exact ⟨_, rfl⟩
      | none =>
        have hst' : st' = a ++ [(var, v)] := hbt_none _ _ _ _ hr
        have herase : eraseKey var st' = a := by
          rw [hst', ← dictInsert_of_not_mem hvar]
          exact eraseKey_insert_of_not_mem hvar
        show ∃ r, goVals csp bt var rest (eraseKey var st') j' = some r
        rw [herase]
        exact ih a j' hvar hlen
    · rw [if_neg hc]
      exact ih a i hvar hlen

theorem backtrackF_total (csp : CSP) :
    ∀ (fuel : Nat) (a : Assignment) (i : Nat),
      a.length ≤ csp.vars.length → csp.vars.length + 1 ≤ fuel + a.length →
      ∃ r, csp.backtrackF fuel a i = some r := by
  intro fuel
  induction fuel with
  | zero =>
    intro a i h1 h2
    omega
  | succ fuel ih =>
    intro a i h1 h2
    rw [backtrackF_succ]
    by_cases hlen : a.length = csp.vars.length
    · rw [if_pos hlen]
      exact ⟨_, rfl⟩
    · rw [if_neg hlen]
      cases hsel : csp.select_unassigned_variable a with
      | none => exact ⟨_, rfl⟩
      | some var =>
        have hlt : a.length < csp.vars.length := lt_of_le_of_ne h1 hlen
        exact goVals_total csp (csp.backtrackF fuel)
          (backtrackF_none_state csp fuel) var a.length
          (fun a' i' hlen' => ih a' i' (by omega) (by omega))
          (csp.domains var) a (i + 1) (select_mem hsel).2 rfl

/-! The invariant carried by every assignment passed down the recursion, and
the resulting characterization of successful results. -/

/-- Well-formedness of the shared dict during search: unique keys, keys drawn
from the variable list, values drawn from the respective domains, and all
three constraints satisfied. -/
def WFA (csp : CSP) (a : Assignment) : Prop :=
  (keys a).Nodup ∧ (∀ r ∈ keys a, r ∈ csp.vars) ∧
  (∀ p ∈ a, p.2 ∈ csp.domains p.1) ∧ consistentAll a = true

theorem WFA_nil (csp : CSP) : WFA csp [] := by
  refine ⟨List.nodup_nil, ?_, ?_, rfl⟩
  · intro r hr
    exact absurd hr (List.not_mem_nil r)
  · intro p hp
    exact absurd hp (List.not_mem_nil p)

theorem WFA_extend {csp : CSP} {a : Assignment} {var : MustToLearn} {v : Lesson}
    (hwf : WFA csp a) (hvar : var ∉ keys a) (hmem : var ∈ csp.vars)
    (hdom : v ∈ csp.domains var) (hcons : consistentAll (a ++ [(var, v)]) = true) :
    WFA csp (a ++ [(var, v)]) := by
  obtain ⟨hnd, hsub, hval, -⟩ := hwf
  refine ⟨?_, ?_, ?_, hcons⟩
  · rw [keys_append]
    simp only [keys, List.map_cons, List.map_nil]
    rw [List.nodup_append]
    refine ⟨hnd, List.nodup_singleton var, ?_⟩
    intro x hx hx'
    simp only [List.mem_singleton] at hx'
    subst hx'
    exact hvar hx
  · intro r hr
    rw [keys_append] at hr
    rcases List.mem_append.mp hr with hr | hr
    · exact hsub r hr
    · simp only [keys, List.map_cons, List.map_nil, List.mem_singleton] at hr
      rw [hr]; exact hmem
  · intro p hp
    rcases List.mem_append.mp hp with hp | hp
    · exact hval p hp
    · simp only [List.mem_singleton] at hp
      rw [hp]; exact hdom

theorem goVals_success (csp : CSP) (bt : Assignment → Nat → Option BTResult)
    (hbt_none : ∀ a i st j, bt a i = some (none, st, j) → st = a)
    (hbt_succ : ∀ a0 i r st j, WFA csp a0 → bt a0 i = some (some r, st, j) →
      WFA csp r ∧ r.length = csp.vars.length)
    (var : MustToLearn) (hmem : var ∈ csp.vars) :
    ∀ (vals : List Lesson) (a : Assignment) (i : Nat) (r st : Assignment) (j : Nat),
      (∀ v ∈ vals, v ∈ csp.domains var) → var ∉ keys a → WFA csp a →
      goVals csp bt var vals a i = some (some r, st, j) →
      WFA csp r ∧ r.length = csp.vars.length := by
  intro vals
  induction vals with
  | nil =>
    intro a i r st j hdom hvar hwf h
    rw [goVals_nil] at h
    injection h with h'
    injection h' with h1 h2
    exact Option.noConfusion h1
  | cons v rest ih =>
    intro a i r st j hdom hvar hwf h
    rw [goVals_cons_split csp bt var v rest a i hvar] at h
    by_cases hc : consistentAll (a ++ [(var, v)]) = true
    · rw [if_pos hc] at h
      cases hbt' : bt (a ++ [(var, v)]) i with
      | none =>
        rw [hbt'] at h
        exact Option.noConfusion h
      | some res =>
        obtain ⟨rr, st', j'⟩ := res
        cases rr with
        | some rres =>
          rw [hbt'] at h
          have h2 : (some (some rres, st', j') : Option BTResult) =
              some (some r, st, j) := h
          injection h2 with h'
          injection h' with h1 h2
          have hr : rres = r := Option.some.inj h1
          subst hr
          exact hbt_succ _ _ _ _ _
            (WFA_extend hwf hvar hmem (hdom v (by simp)) hc) hbt'
        | none =>
          rw [hbt'] at h
          have hst' : st' = a ++ [(var, v)] := hbt_none _ _ _ _ hbt'
          have herase : eraseKey var st' = a := by
            rw [hst', ← dictInsert_of_not_mem hvar]
            exact eraseKey_insert_of_not_mem hvar
          have h2 : goVals csp bt var rest (eraseKey var st') j' =
              some (some r, st, j) := h
          rw [herase] at h2
          exact ih a j' r st j (fun u hu => hdom u (by simp [hu])) hvar hwf h2
    · rw [if_neg hc] at h
      exact ih a i r st j (fun u hu => hdom u (by simp [hu])) hvar hwf h

theorem backtrackF_success (csp : CSP) :
    ∀ (fuel : Nat) (a : Assignment) (i : Nat) (r st : Assignment) (j : Nat),
      WFA csp a → csp.backtrackF fuel a i = some (some r, st, j) →
      WFA csp r ∧ r.length = csp.vars.length := by
  intro fuel
  induction fuel with
  | zero =>
    intro a i r st j hwf h
    exact Option.noConfusion h
  | succ fuel ih =>
    intro a i r st j hwf h
    rw [backtrackF_succ] at h
    by_cases hlen : a.length = csp.vars.length
    · rw [if_pos hlen] at h
      injection h with h'
      injection h' with h1 h2
      have hr : a = r := Option.some.inj h1
      subst hr
      exact ⟨hwf, hlen⟩
    · rw [if_neg hlen] at h
      cases hsel : csp.select_unassigned_variable a with
      | none =>
        rw [hsel] at h
        have h2 : (some (none, a, i + 1) : Option BTResult) = some (some r, st, j) := h
        injection h2 with h'
        injection h' with h1 h2
        exact Option.noConfusion h1
      | some var =>
        rw [hsel] at h
        have h2 : goVals csp (csp.backtrackF fuel) var (csp.domains var) a (i + 1) =
            some (some r, st, j) := h
        exact goVals_success csp (csp.backtrackF fuel)
          (backtrackF_none_state csp fuel) (fun a0 i0 r0 st0 j0 => ih a0 i0 r0 st0 j0)
          var (select_mem hsel).1 (csp.domains var) a (i + 1) r st j
          (fun u hu => hu) (select_mem hsel).2 hwf h2

/-- A duplicate-free list contained in a list of the same length has exactly
the same members. -/
theorem mem_iff_of_nodup_subset_length {l l' : List MustToLearn}
    (h1 : l.Nodup) (h2 : ∀ x ∈ l, x ∈ l') (h3 : l.length = l'.length) :
    ∀ x, x ∈ l ↔ x ∈ l' := by
  have hsub : l.toFinset ⊆ l'.toFinset := by
    intro x hx
    exact List.mem_toFinset.mpr (h2 x (List.mem_toFinset.mp hx))
  have hc1 : l.toFinset.card = l.length := List.toFinset_card_of_nodup h1
  have hc2 : l'.toFinset.card ≤ l'.length := List.toFinset_card_le l'
  have heq : l.toFinset = l'.toFinset :=
    Finset.eq_of_subset_of_card_le hsub (by omega)
  intro x
  rw [← List.mem_toFinset, heq, List.mem_toFinset]

/-- Characterization of a successful `solve`: it is the successful result of
`backtrack` at fuel `vars.length + 1`, and it is nonempty (otherwise the
`or None` coercion would have hidden it). -/
theorem solve_some (csp : CSP) (a : Assignment) (i : Nat)
    (h : csp.solve = (some a, i)) :
    ∃ st, csp.backtrackF (csp.vars.length + 1) [] 0 = some (some a, st, i) ∧ a ≠ [] := by
  have h' : (match csp.backtrackF (csp.vars.length + 1) [] 0 with
      | some (some a, _, i) => ((if a.isEmpty then none else some a : Option Assignment), i)
      | some (none, _, i) => ((none : Option Assignment), i)
      | none => ((none : Option Assignment), 0)) = (some a, i) := h
  cases hbt : csp.backtrackF (csp.vars.length + 1) [] 0 with
  | none =>
    rw [hbt] at h'
    have h2 : ((none : Option Assignment), 0) = ((some a : Option Assignment), i) := h'
    injection h2 with h3 h4
    exact Option.noConfusion h3
  | some res =>
    obtain ⟨r, st, j⟩ := res
    cases r with
    | none =>
      rw [hbt] at h'
      have h2 : ((none : Option Assignment), j) = ((some a : Option Assignment), i) := h'
      injection h2 with h3 h4
      exact Option.noConfusion h3
    | some a' =>
      rw [hbt] at h'
      have h2 : ((if a'.isEmpty then none else some a' : Option Assignment), j) =
          ((some a : Option Assignment), i) := h'
      by_cases he : a'.isEmpty
      · rw [if_pos he] at h2
        injection h2 with h3 h4
        exact Option.noConfusion h3
      · rw [if_neg he] at h2
        injection h2 with h3 h4
        have ha : a' = a := Option.some.inj h3
        subst ha
        subst h4
        refine ⟨st, rfl, ?_⟩
        intro hnil
        rw [hnil] at he
        exact he rfl

/-- Every successful `solve` result satisfies the full search invariant and
binds exactly as many Requirements as there are variables. -/
theorem solve_some_invariant (csp : CSP) (a : Assignment) (i : Nat)
    (h : csp.solve = (some a, i)) :
    WFA csp a ∧ a.length = csp.vars.length := by
  obtain ⟨st, hbt, -⟩ := solve_some csp a i h
  exact backtrackF_success csp (csp.vars.length + 1) [] 0 a st i (WFA_nil csp) hbt

theorem consistentAll_split {a : Assignment} (h : consistentAll a = true) :
    teacher_time_conflict_constraint a = true ∧
    group_time_conflict_constraint a = true ∧
    auditorium_time_conflict_constraint a = true := by
  rw [consistentAll, Bool.and_eq_true, Bool.and_eq_true] at h
  exact ⟨h.1, h.2.1, h.2.2⟩

/-- C1: if `solve()` returns a non-`None` assignment, its keys are exactly
the CSP's Requirements — each Requirement appears exactly once as a key —
and the teacher-time, group-time and room-time constraint predicates all
evaluate to `true` on the full returned assignment. -/
theorem claim_C1_completeness_of_success (csp : CSP) (a : Assignment) (i : Nat)
    (h : csp.solve = (some a, i)) :
    (keys a).Nodup ∧ (∀ r, r ∈ keys a ↔ r ∈ csp.vars) ∧
    teacher_time_conflict_constraint a = true ∧
    group_time_conflict_constraint a = true ∧
    auditorium_time_conflict_constraint a = true := by
  obtain ⟨⟨hnd, hsub, -, hcons⟩, hlen⟩ := solve_some_invariant csp a i h
  have hklen : (keys a).length = csp.vars.length := by
    rw [keys, List.length_map]; exact hlen
  obtain ⟨ht, hg, hau⟩ := consistentAll_split hcons
  exact ⟨hnd, mem_iff_of_nodup_subset_length hnd hsub hklen, ht, hg, hau⟩

/-- Witness for C1 at a concrete instance where `solve` succeeds. -/
theorem claim_C1_witness :
    cspOne.solve = (some [(reqBig, lesBig)], 2) ∧
    ((keys [(reqBig, lesBig)]).Nodup ∧
     (∀ r, r ∈ keys [(reqBig, lesBig)] ↔ r ∈ cspOne.vars) ∧
     teacher_time_conflict_constraint [(reqBig, lesBig)] = true ∧
     group_time_conflict_constraint [(reqBig, lesBig)] = true ∧
     auditorium_time_conflict_constraint [(reqBig, lesBig)] = true) :=
  ⟨by decide, claim_C1_completeness_of_success cspOne [(reqBig, lesBig)] 2 (by decide)⟩

/-- The claim's notion of a solution to the true constraint-satisfaction
problem: a complete assignment binding every Requirement exactly once to a
candidate from its domain on which every constraint predicate holds. -/
def is_solution (csp : CSP) (a : Assignment) : Prop :=
  (keys a).Nodup ∧ (∀ r, r ∈ keys a ↔ r ∈ csp.vars) ∧
  (∀ p ∈ a, p.2 ∈ csp.domains p.1) ∧ consistentAll a = true

/-- C2: if no complete assignment drawn from the domains satisfies all the
constraint predicates, then `solve()` returns the unsatisfiable signal. -/
theorem claim_C2_soundness_of_failure (csp : CSP)
    (h : ¬ ∃ a, is_solution csp a) : (csp.solve).1 = none := by
  cases hs : csp.solve with
  | mk fst snd =>
    cases fst with
    | none => rfl
    | some a =>
      exfalso
      apply h
      obtain ⟨⟨hnd, hsub, hdom, hcons⟩, hlen⟩ := solve_some_invariant csp a snd hs
      have hklen : (keys a).length = csp.vars.length := by
        rw [keys, List.length_map]; exact hlen
      exact ⟨a, hnd, mem_iff_of_nodup_subset_length hnd hsub hklen, hdom, hcons⟩

/-- Witness for C2: an instance with an empty domain has no solution, and
`solve` indeed reports failure on it. -/
theorem claim_C2_witness :
    (¬ ∃ a, is_solution cspEmptyDom a) ∧ (cspEmptyDom.solve).1 = none := by
  have hno : ¬ ∃ a, is_solution cspEmptyDom a := by
    rintro ⟨a, hnd, hiff, hdom, hcons⟩
    have h2 : reqBig2 ∈ keys a := (hiff reqBig2).mpr (by decide)
    obtain ⟨p, hp, hp1⟩ := mem_keys.mp h2
    have hv := hdom p hp
    rw [hp1] at hv
    have hd : cspEmptyDom.domains reqBig2 = [] := by decide
    rw [hd] at hv
    exact absurd hv (List.not_mem_nil p.2)
  exact ⟨hno, claim_C2_soundness_of_failure cspEmptyDom hno⟩

/-- C3: the teacher-time predicate rejects an assignment exactly when it
contains two distinct bound lessons that share teacher, day and period and
additionally differ in subject, or have the same group, or differ in room;
otherwise it accepts. -/
theorem claim_C3_teacher_time_iff (a : Assignment) :
    teacher_time_conflict_constraint a = false ↔
      ∃ l ∈ values a, ∃ o ∈ values a, o ≠ l ∧
        l.teacher = o.teacher ∧ l.day = o.day ∧ l.lesson_num = o.lesson_num ∧
        (l.subject ≠ o.subject ∨ l.group = o.group ∨ l.auditorium ≠ o.auditorium) := by
  rw [teacher_time_conflict_constraint, List.all_eq_false]
  simp only [Bool.not_eq_true, Bool.not_eq_false, Bool.not_eq_true', Bool.not_eq_false',
    List.any_eq_true, Bool.and_eq_true, Bool.or_eq_true, decide_eq_true_eq, ne_eq, or_assoc]

/-- Counterexample to C4 as stated: two distinct Requirements bound to the
same `Lesson` value share group, day and period, yet the predicate accepts,
because the source compares lessons by value when skipping the pair. -/
theorem claim_C4_counterexample :
    ¬ ∀ (a : Assignment),
        (∃ p ∈ a, ∃ q ∈ a, p.1 ≠ q.1 ∧ (p.2).group = (q.2).group ∧
          (p.2).day = (q.2).day ∧ (p.2).lesson_num = (q.2).lesson_num) →
        group_time_conflict_constraint a = false := by
  intro h
  exact absurd (h [(reqBig, lesBig), (reqBig2, lesBig)] (by decide)) (by decide)

/-- C4 as amended: the group-time predicate returns `false` exactly when two
lessons that are distinct as values share group, day and period; two distinct
Requirements bound to identical lesson values are not flagged. -/
theorem claim_C4_group_time_iff (a : Assignment) :
    group_time_conflict_constraint a = false ↔
      ∃ l ∈ values a, ∃ o ∈ values a, o ≠ l ∧
        l.group = o.group ∧ l.day = o.day ∧ l.lesson_num = o.lesson_num := by
  rw [group_time_conflict_constraint, List.all_eq_false]
  simp only [Bool.not_eq_true, Bool.not_eq_false, Bool.not_eq_true', Bool.not_eq_false',
    List.any_eq_true, Bool.and_eq_true, decide_eq_true_eq, ne_eq]

/-- Modelled from the spec: the room-capacity property that the spec asserts
of accepted solutions — the total number of students of the (distinct) groups
whose lessons are placed in a given room at a given day and period must not
exceed that room's capacity.  No function of `src/main.py` checks this. -/
def room_capacity_respected (a : Assignment) : Bool :=
  (values a).all fun lesson =>
    match lesson.auditorium with
    | none => true
    | some aud =>
        decide (((((values a).filter (fun o =>
            decide (o.day = lesson.day) && (decide (o.lesson_num = lesson.lesson_num) &&
             decide (o.auditorium = lesson.auditorium)))).map Lesson.group).dedup.map
              Group.students).sum ≤ aud.capacity)

/-- Counterexample to C5 as stated: `solve` accepts a schedule that puts the
100-student group `gBig` into the 10-seat room `audSmall`, because no
constraint of the source inspects capacities. -/
theorem claim_C5_counterexample :
    ¬ ∀ (csp : CSP) (a : Assignment) (i : Nat),
        csp.solve = (some a, i) → room_capacity_respected a = true := by
  intro h
  exact absurd (h cspOne [(reqBig, lesBig)] 2 (by decide)) (by decide)

/-- C5 as amended: an assignment accepted by `solve()` satisfies the three
time-conflict predicates — room capacity is not among the checks, and a
solution may exceed it. -/
theorem claim_C5_solution_constraints (csp : CSP) (a : Assignment) (i : Nat)
    (h : csp.solve = (some a, i)) :
    teacher_time_conflict_constraint a = true ∧
    group_time_conflict_constraint a = true ∧
    auditorium_time_conflict_constraint a = true := by
  obtain ⟨⟨-, -, -, hcons⟩, -⟩ := solve_some_invariant csp a i h
  exact consistentAll_split hcons

/-- Witness for the amended C5 at a concrete successful instance. -/
theorem claim_C5_witness :
    cspRetry.solve = (some [(reqSmall, lesSmall), (reqBig, lesBig2)], 3) ∧
    (teacher_time_conflict_constraint [(reqSmall, lesSmall), (reqBig, lesBig2)] = true ∧
     group_time_conflict_constraint [(reqSmall, lesSmall), (reqBig, lesBig2)] = true ∧
     auditorium_time_conflict_constraint [(reqSmall, lesSmall), (reqBig, lesBig2)] = true) :=
  ⟨by decide, claim_C5_solution_constraints cspRetry
    [(reqSmall, lesSmall), (reqBig, lesBig2)] 3 (by decide)⟩

/-- C6: with at least one unbound Requirement, `select_unassigned_variable`
returns an unbound Requirement of minimum domain size, and on ties the one
occurring first in the variable list's order (the unassigned list preserves
that order, and the returned variable strictly beats everything before it). -/
theorem claim_C6_mrv_selection (csp : CSP) (a : Assignment)
    (h : ∃ v ∈ csp.vars, v ∉ keys a) :
    ∃ v, csp.select_unassigned_variable a = some v ∧ v ∈ csp.unassigned a ∧
      (∀ u ∈ csp.unassigned a, (csp.domains v).length ≤ (csp.domains u).length) ∧
      ∃ l1 l2, csp.unassigned a = l1 ++ v :: l2 ∧
        ∀ u ∈ l1, (csp.domains v).length < (csp.domains u).length := by
  obtain ⟨v0, hv0, hk0⟩ := h
  have hne : csp.unassigned a ≠ [] := by
    intro hnil
    have : v0 ∈ csp.unassigned a := mem_unassigned.mpr ⟨hv0, hk0⟩
    rw [hnil] at this
    exact absurd this (List.not_mem_nil v0)
  obtain ⟨v, hv⟩ := select_isSome hne
  obtain ⟨hmin, l1, l2, hdec, hpre⟩ :=
    pyMin_spec (fun u => (csp.domains u).length) (csp.unassigned a) v hv
  exact ⟨v, hv, pyMin_mem _ _ _ hv, hmin, l1, l2, hdec, hpre⟩

/-- Witness for C6 at a concrete instance: the empty-domain Requirement
`reqBig2` is selected ahead of `reqBig`. -/
theorem claim_C6_witness :
    (∃ v ∈ cspEmptyDom.vars, v ∉ keys ([] : Assignment)) ∧
    (∃ v, cspEmptyDom.select_unassigned_variable [] = some v ∧
      v ∈ cspEmptyDom.unassigned [] ∧
      (∀ u ∈ cspEmptyDom.unassigned [],
        (cspEmptyDom.domains v).length ≤ (cspEmptyDom.domains u).length) ∧
      ∃ l1 l2, cspEmptyDom.unassigned [] = l1 ++ v :: l2 ∧
        ∀ u ∈ l1, (cspEmptyDom.domains v).length < (cspEmptyDom.domains u).length) :=
  ⟨by decide, claim_C6_mrv_selection cspEmptyDom [] (by decide)⟩

/-- C7: a recursive `backtrack` call that returns failure leaves the shared
assignment dict exactly as it was on entry, and `is_consistent` on a not yet
bound variable (the only way the search calls it) leaves it unchanged on both
verdicts. -/
theorem claim_C7_undo_restores_state :
    (∀ (csp : CSP) (fuel : Nat) (a : Assignment) (i : Nat) (st : Assignment) (j : Nat),
        csp.backtrackF fuel a i = some (none, st, j) → st = a) ∧
    (∀ (csp : CSP) (var : MustToLearn) (v : Lesson) (a : Assignment),
        var ∉ keys a → (csp.is_consistent var v a).2 = a) :=
  ⟨fun csp fuel a i st j h => backtrackF_none_state csp fuel a i st j h,
   fun csp var v a h => is_consistent_snd csp var v a h⟩

/-- Witness for C7: a concrete failing call and a concrete consistency check,
both leaving their input dict untouched. -/
theorem claim_C7_witness :
    (([] : Assignment) = ([] : Assignment)) ∧
    ((cspOne.is_consistent reqBig lesBig [(reqSmall, lesSmall)]).2 =
      [(reqSmall, lesSmall)]) :=
  ⟨claim_C7_undo_restores_state.1 cspEmptyDom 2 [] 0 [] 1 (by decide),
   claim_C7_undo_restores_state.2 cspOne reqBig lesBig [(reqSmall, lesSmall)] (by decide)⟩

/-- C8: an instance containing a Requirement with an empty domain is reported
unsatisfiable, and the MRV heuristic necessarily selects a domain-size-0
variable in the very first call, so the step count is exactly 1. -/
theorem claim_C8_empty_domain_unsat (csp : CSP)
    (h : ∃ v ∈ csp.vars, csp.domains v = []) :
    csp.solve = (none, 1) := by
  obtain ⟨v0, hv0, hd0⟩ := h
  have hne : csp.vars ≠ [] := by
    intro hnil
    rw [hnil] at hv0
    exact absurd hv0 (List.not_mem_nil v0)
  have hpos : 0 < csp.vars.length := List.length_pos.mpr hne
  have hlen0 : ¬ (([] : Assignment).length = csp.vars.length) := by
    simp only [List.length_nil]
    omega
  have hunas : csp.unassigned [] = csp.vars := unassigned_nil csp
  have hune : csp.unassigned ([] : Assignment) ≠ [] := by
    rw [hunas]
    exact hne
  obtain ⟨m, hm⟩ := select_isSome hune
  have hm' : pyMin (fun v => (csp.domains v).length) csp.vars = some m := by
    rw [← hunas]
    exact hm
  have hmin := (pyMin_spec _ _ _ hm').1
  have hm0 : (csp.domains m).length = 0 := by
    have h1 := hmin v0 hv0
    rw [hd0] at h1
    simpa using h1
  have hmnil : csp.domains m = [] := List.length_eq_zero.mp hm0
  have hbt : csp.backtrackF (csp.vars.length + 1) [] 0 = some (none, [], 1) := by
    rw [backtrackF_succ, if_neg hlen0, hm]
    show goVals csp (csp.backtrackF csp.vars.length) m (csp.domains m) [] 1 =
      some (none, [], 1)
    rw [hmnil, goVals_nil]
  show (match csp.backtrackF (csp.vars.length + 1) [] 0 with
    | some (some a, _, i) => ((if a.isEmpty then none else some a : Option Assignment), i)
    | some (none, _, i) => ((none : Option Assignment), i)
    | none => ((none : Option Assignment), 0)) = (none, 1)
  rw [hbt]

/-- Witness for C8 at a concrete empty-domain instance. -/
theorem claim_C8_witness :
    (∃ v ∈ cspEmptyDom.vars, cspEmptyDom.domains v = []) ∧
    cspEmptyDom.solve = (none, 1) :=
  ⟨by decide, claim_C8_empty_domain_unsat cspEmptyDom (by decide)⟩

/-- C9: on every instance the recursion completes within fuel
`vars.length + 1` — each recursive call binds one more variable, and the
assignment is bounded by the variable count — and `solve` returns either the
unsatisfiable signal or a complete assignment. -/
theorem claim_C9_termination (csp : CSP) :
    ∃ res st steps,
      csp.backtrackF (csp.vars.length + 1) [] 0 = some (res, st, steps) ∧
      ((csp.solve).1 = none ∨
        ∃ a, (csp.solve).1 = some a ∧ a.length = csp.vars.length) := by
  obtain ⟨r, hr⟩ := backtrackF_total csp (csp.vars.length + 1) [] 0 (by simp) (by simp)
  obtain ⟨res, st, steps⟩ := r
  refine ⟨res, st, steps, hr, ?_⟩
  cases hs : csp.solve with
  | mk fst snd =>
    cases fst with
    | none => exact Or.inl rfl
    | some a =>
      right
      refine ⟨a, rfl, ?_⟩
      exact (solve_some_invariant csp a snd hs).2

/-- C10: with an empty variable list `backtrack` immediately succeeds with
the empty assignment — which is complete and satisfies every constraint
predicate — yet `solve` returns `(None, 1)`, because `assignment or None`
coerces the empty (falsy) dict to `None`. -/
theorem claim_C10_empty_variable_list (domains : MustToLearn → List Lesson) :
    (CSP.mk [] domains).solve = (none, 1) ∧
    (CSP.mk [] domains).backtrackF 1 [] 0 = some (some [], [], 1) ∧
    consistentAll ([] : Assignment) = true :=
  ⟨rfl, rfl, rfl⟩

end ScheduleCSP
